import Mathlib

/-!
Verification of `src/FF.py` (class `NNUnit`): a single sigmoid
neural-network layer with forward propagation (`CalcOut`) and an
L2-regularised gradient-descent update (`UpdateWB`), built on numpy
arrays.

Modelling conventions:

* numpy 1-D float arrays are `List ℝ`; 2-D arrays are `List (List ℝ)` in
  row-major layout (outer list = rows).
* The source keeps `self.b` as an `(n_classes, 1)` column matrix and only
  ever reads or writes `b[i][0]`; it is modelled as a length-`n_classes`
  vector whose entry `i` stands for `b[i][0]`.  Likewise the bias
  gradient `db`.
* Operations on which numpy raises — out-of-bounds indexing
  (`IndexError`), 1-D `matmul` on vectors of different lengths
  (`ValueError`), division by an integer zero (`ZeroDivisionError`), an
  invalid `dtype` argument (`TypeError`) — are modelled as `none` of
  `Option`-valued functions.  The partially mutated object that a Python
  exception would leave behind is not modelled.
* `np.random.randn(n_classes, n_pu)` draws from a process-wide random
  source; the drawn matrix is passed in as the explicit argument `randW`.
-/

/-- State of a `NNUnit` object (src/FF.py, lines 4-14): `nc` = `self.nc`,
`pu` = `self.pu`, `b` = `self.b` (column matrix, modelled as a vector),
`w` = `self.w`, `oldb` = `self.oldb`, `oldw` = `self.oldw`,
`a` = `self.a`, `prev_x` = `self.prev_x`. -/
structure NNUnit where
  nc : ℕ
  pu : ℕ
  b : List ℝ
  w : List (List ℝ)
  oldb : Option (List ℝ)
  oldw : Option (List (List ℝ))
  a : List ℝ
  prev_x : Option (List (List ℝ))

/-- Behaviour of `np.zeros(shape, dtype)` when the `dtype` argument is a
Python integer, as in line 13 `self.a = np.zeros(1, n_classes)`: numpy
does not accept a bare integer as a dtype and raises
`TypeError: Cannot interpret ... as a data type`, whatever the integer. -/
def npZerosIntDtype (shape : ℕ) (dtype : ℕ) : Option (List ℝ) := none

/-- Constructor `__init__` (lines 5-14).  The weight draw
`np.random.randn(n_classes, n_pu)` of line 10 is passed in as `randW`.
Lines 6-12 set the seed and the fields `nc`, `pu`, `b`, `w`, `oldb`,
`oldw`; line 13 then evaluates `np.zeros(1, n_classes)`, whose second
positional argument is the `dtype` parameter of `np.zeros`, so the call
raises a `TypeError` and no object is ever produced (line 14 is not
reached). -/
def NNUnit.init (n_classes n_pu : ℕ) (randW : List (List ℝ)) : Option NNUnit :=
  (npZerosIntDtype 1 n_classes).map fun a0 =>
    { nc := n_classes
      pu := n_pu
      b := List.replicate n_classes 0
      w := randW
      oldb := none
      oldw := none
      a := a0
      prev_x := none }

/-- Method `calcActivation` (lines 15-16): `1/(1+np.exp(-x))` on a
scalar.  It reads and writes no field of the object, so it is modelled as
a plain function on `ℝ`. -/
noncomputable def calcActivation (x : ℝ) : ℝ :=
  1 / (1 + Real.exp (-x))

/-- Dot product of two real vectors: the value `np.matmul` computes on
two 1-D arrays of equal length. -/
def dotList : List ℝ → List ℝ → ℝ
  | p :: u, q :: v => p * q + dotList u v
  | _, _ => 0

/-- Column `i` of a row-major matrix: the value
`np.transpose(np.transpose(x)[i])` reads in line 20 when every row of `x`
has an entry at index `i`. -/
def colList (x : List (List ℝ)) (i : ℕ) : List ℝ :=
  x.map fun r => r.getD i 0

/-- Reading column `i` of `x` (line 20): `IndexError` (`none`) when some
row of `x` has no entry at index `i`. -/
def npCol (x : List (List ℝ)) (i : ℕ) : Option (List ℝ) :=
  if ∀ r ∈ x, i < r.length then some (colList x i) else none

/-- `np.matmul(u, v)` on two 1-D arrays (line 20): the dot product when
the lengths agree, otherwise `ValueError` (`none`). -/
def npMatmul1d (u v : List ℝ) : Option ℝ :=
  if u.length = v.length then some (dotList u v) else none

/-- Element assignment `l[i] = v` into a numpy 1-D array (lines 21, 26,
29): `IndexError` (`none`) when `i` is out of bounds. -/
def npSet (l : List ℝ) (i : ℕ) (v : ℝ) : Option (List ℝ) :=
  if i < l.length then some (l.set i v) else none

/-- Loop of `CalcOut` (lines 19-21): for each `i` of the index list,
computes `np.matmul(self.w[i], np.transpose(np.transpose(x)[i])) +
self.b[i]` and stores its activation at `self.a[i]`, threading the
activation array; `none` as soon as a numpy operation raises. -/
noncomputable def calcOutGo (w : List (List ℝ)) (b : List ℝ) (x : List (List ℝ)) :
    List ℕ → List ℝ → Option (List ℝ)
  | [], a => some a
  | i :: rest, a => do
    let wi ← w.get? i
    let xi ← npCol x i
    let d ← npMatmul1d wi xi
    let bi ← b.get? i
    let a1 ← npSet a i (calcActivation (d + bi))
    calcOutGo w b x rest a1

/-- Method `CalcOut` (lines 17-21): stores the input as `prev_x`
(line 18), then runs the neuron loop `for i in range(self.nc)`;
`none` when the loop raises. -/
noncomputable def NNUnit.CalcOut (s : NNUnit) (x : List (List ℝ)) : Option NNUnit :=
  match calcOutGo s.w s.b x (List.range s.nc) s.a with
  | some a1 => some { s with prev_x := some x, a := a1 }
  | none => none

/-- Bias loop of `UpdateWB` (lines 25-26):
`self.b[i][0] = self.b[i][0] - lr*db[i][0]` for each `i` of the index
list. -/
noncomputable def updateBGo (lr : ℝ) (db : List ℝ) :
    List ℕ → List ℝ → Option (List ℝ)
  | [], b => some b
  | i :: rest, b => do
    let bi ← b.get? i
    let dbi ← db.get? i
    let b1 ← npSet b i (bi - lr * dbi)
    updateBGo lr db rest b1

/-- Inner weight loop of `UpdateWB` (lines 28-29), updating row `wi`:
`self.w[i][j] = (1-(regH*lr/b_size))*self.w[i][j] - (lr*dw[i][j])` for
each `j` of the index list. -/
noncomputable def updateWRowGo (lr regH bs : ℝ) (dwi : List ℝ) :
    List ℕ → List ℝ → Option (List ℝ)
  | [], wi => some wi
  | j :: rest, wi => do
    let wij ← wi.get? j
    let dwij ← dwi.get? j
    let wi1 ← npSet wi j ((1 - regH * lr / bs) * wij - lr * dwij)
    updateWRowGo lr regH bs dwi rest wi1

/-- Outer weight loop of `UpdateWB` (lines 27-29): runs the inner loop
`for j in range(self.pu)` on row `self.w[i]` for each `i` of the index
list. -/
noncomputable def updateWGo (lr regH bs : ℝ) (pu : ℕ) (dw : List (List ℝ)) :
    List ℕ → List (List ℝ) → Option (List (List ℝ))
  | [], w => some w
  | i :: rest, w => do
    let wi ← w.get? i
    let dwi ← dw.get? i
    let wi1 ← updateWRowGo lr regH bs dwi (List.range pu) wi
    updateWGo lr regH bs pu dw rest (w.set i wi1)

/-- Method `UpdateWB` (lines 22-29): snapshots `b` and `w` into `oldb`
and `oldw` (lines 23-24, `np.array` copies), then runs the bias loop and
the weight loop over `range(self.nc)`.  `b_size` enters only through
`regH*lr/b_size`; a zero `b_size` raises `ZeroDivisionError` (`none`). -/
noncomputable def NNUnit.UpdateWB (s : NNUnit) (dw : List (List ℝ)) (db : List ℝ)
    (lr regH : ℝ) (b_size : ℕ) : Option NNUnit :=
  if b_size = 0 then none
  else do
    let b1 ← updateBGo lr db (List.range s.nc) s.b
    let w1 ← updateWGo lr regH (b_size : ℝ) s.pu dw (List.range s.nc) s.w
    some { s with oldb := some s.b, oldw := some s.w, b := b1, w := w1 }

/-- Value written into `self.a[i]` by one pass of the `CalcOut` loop. -/
noncomputable def outVal (w : List (List ℝ)) (b : List ℝ) (x : List (List ℝ)) (i : ℕ) : ℝ :=
  calcActivation (dotList (w.getD i []) (colList x i) + b.getD i 0)

/-- Value written into `self.b[i][0]` by the bias loop of `UpdateWB`. -/
noncomputable def newBias (lr : ℝ) (b db : List ℝ) (i : ℕ) : ℝ :=
  b.getD i 0 - lr * db.getD i 0

/-- Value written into `self.w[i][j]` by the weight loop of `UpdateWB`,
given row `wi` of the weights and row `dwi` of the gradient. -/
noncomputable def newWeight (lr regH bs : ℝ) (wi dwi : List ℝ) (j : ℕ) : ℝ :=
  (1 - regH * lr / bs) * wi.getD j 0 - lr * dwi.getD j 0

lemma getq_some {α : Type} (l : List α) (d : α) (i : ℕ) (h : i < l.length) :
    l[i]? = some (l.getD i d) := by
  rw [List.getElem?_eq_getElem h, List.getD_eq_getElem l d h]

lemma getq_some' {α : Type} (l : List α) (d : α) (i : ℕ) (h : i < l.length) :
    l.get? i = some (l.getD i d) := by
  rw [List.get?_eq_getElem?]
  exact getq_some l d i h

lemma getD_set_other {α : Type} (l : List α) (i j : ℕ) (v d : α) (hij : i ≠ j) :
    (l.set i v).getD j d = l.getD j d := by
  simp only [List.getD_eq_getElem?_getD]
  rw [List.getElem?_set_ne hij]

lemma calcActivation_mem_Ioo (x : ℝ) : calcActivation x ∈ Set.Ioo (0:ℝ) 1 := by
  unfold calcActivation
  constructor
  · positivity
  · rw [div_lt_one (by positivity)]
    have := Real.exp_pos (-x)
    linarith

lemma calcOutGo_spec (w : List (List ℝ)) (b : List ℝ) (x : List (List ℝ)) :
    ∀ (idx : List ℕ) (a : List ℝ), idx.Nodup →
      (∀ i ∈ idx, i < w.length ∧ (∀ r ∈ x, i < r.length) ∧
        (w.getD i []).length = x.length ∧ i < b.length ∧ i < a.length) →
      ∃ a1, calcOutGo w b x idx a = some a1 ∧ a1.length = a.length ∧
        (∀ i ∈ idx, a1[i]? = some (outVal w b x i)) ∧
        (∀ j, j ∉ idx → a1[j]? = a[j]?) := by
  intro idx
  induction idx with
  | nil =>
    intro a _ _
    exact ⟨a, rfl, rfl, by simp, fun j _ => rfl⟩
  | cons i rest ih =>
    intro a hnd hcond
    obtain ⟨hiw, hix, hdlen, hib, hia⟩ := hcond i (List.mem_cons_self i rest)
    have hnd' := List.nodup_cons.mp hnd
    have hwi : w.get? i = some (w.getD i []) := getq_some' w [] i hiw
    have hcol : npCol x i = some (colList x i) := by
      unfold npCol; rw [if_pos hix]
    have hdot : npMatmul1d (w.getD i []) (colList x i) =
        some (dotList (w.getD i []) (colList x i)) := by
      unfold npMatmul1d
      rw [if_pos (by simpa [colList] using hdlen)]
    have hbi : b.get? i = some (b.getD i 0) := getq_some' b 0 i hib
    have hset : npSet a i (calcActivation (dotList (w.getD i []) (colList x i) + b.getD i 0)) =
        some (a.set i (calcActivation (dotList (w.getD i []) (colList x i) + b.getD i 0))) := by
      unfold npSet; rw [if_pos hia]
    have hstep : calcOutGo w b x (i :: rest) a =
        calcOutGo w b x rest (a.set i (outVal w b x i)) := by
      rw [calcOutGo]
      simp only [hwi, hcol, hdot, hbi, hset, outVal, Option.bind_eq_bind, Option.some_bind]
    obtain ⟨a1, hrun, hlen, hvals, hframe⟩ :=
      ih (a.set i (outVal w b x i)) hnd'.2 (by
        intro i' hm
        obtain ⟨c1, c2, c3, c4, c5⟩ := hcond i' (List.mem_cons_of_mem i hm)
        refine ⟨c1, c2, c3, c4, ?_⟩
        rw [List.length_set]
        exact c5)
    refine ⟨a1, by rw [hstep]; exact hrun, by rw [hlen, List.length_set], ?_, ?_⟩
    · intro i' hm
      rcases List.mem_cons.mp hm with h | h
      · subst h
        rw [hframe i' hnd'.1, List.getElem?_set_self hia]
      · exact hvals i' h
    · intro j hj
      have hj' : j ≠ i ∧ j ∉ rest := by simpa [List.mem_cons, not_or] using hj
      rw [hframe j hj'.2, List.getElem?_set_ne (Ne.symm hj'.1)]

lemma updateBGo_spec (lr : ℝ) (db : List ℝ) :
    ∀ (idx : List ℕ) (b : List ℝ), idx.Nodup →
      (∀ i ∈ idx, i < b.length ∧ i < db.length) →
      ∃ b1, updateBGo lr db idx b = some b1 ∧ b1.length = b.length ∧
        (∀ i ∈ idx, b1[i]? = some (newBias lr b db i)) ∧
        (∀ j, j ∉ idx → b1[j]? = b[j]?) := by
  intro idx
  induction idx with
  | nil =>
    intro b _ _
    exact ⟨b, rfl, rfl, by simp, fun j _ => rfl⟩
  | cons i rest ih =>
    intro b hnd hcond
    obtain ⟨hib, hidb⟩ := hcond i (List.mem_cons_self i rest)
    have hnd' := List.nodup_cons.mp hnd
    have hbi : b.get? i = some (b.getD i 0) := getq_some' b 0 i hib
    have hdbi : db.get? i = some (db.getD i 0) := getq_some' db 0 i hidb
    have hset : npSet b i (b.getD i 0 - lr * db.getD i 0) =
        some (b.set i (b.getD i 0 - lr * db.getD i 0)) := by
      unfold npSet; rw [if_pos hib]
    have hstep : updateBGo lr db (i :: rest) b =
        updateBGo lr db rest (b.set i (newBias lr b db i)) := by
      rw [updateBGo]
      simp only [hbi, hdbi, hset, newBias, Option.bind_eq_bind, Option.some_bind]
    obtain ⟨b1, hrun, hlen, hvals, hframe⟩ :=
      ih (b.set i (newBias lr b db i)) hnd'.2 (by
        intro i' hm
        obtain ⟨c1, c2⟩ := hcond i' (List.mem_cons_of_mem i hm)
        exact ⟨by rw [List.length_set]; exact c1, c2⟩)
    refine ⟨b1, by rw [hstep]; exact hrun, by rw [hlen, List.length_set], ?_, ?_⟩
    · intro i' hm
      rcases List.mem_cons.mp hm with h | h
      · subst h
        rw [hframe i' hnd'.1, List.getElem?_set_self hib]
      · have hne : i ≠ i' := fun hh => hnd'.1 (hh ▸ h)
        rw [hvals i' h]
        unfold newBias
        rw [getD_set_other b i i' _ 0 hne]
    · intro j hj
      have hj' : j ≠ i ∧ j ∉ rest := by simpa [List.mem_cons, not_or] using hj
      rw [hframe j hj'.2, List.getElem?_set_ne (Ne.symm hj'.1)]

lemma updateWRowGo_spec (lr regH bs : ℝ) (dwi : List ℝ) :
    ∀ (idx : List ℕ) (wi : List ℝ), idx.Nodup →
      (∀ j ∈ idx, j < wi.length ∧ j < dwi.length) →
      ∃ wi1, updateWRowGo lr regH bs dwi idx wi = some wi1 ∧ wi1.length = wi.length ∧
        (∀ j ∈ idx, wi1[j]? = some (newWeight lr regH bs wi dwi j)) ∧
        (∀ j, j ∉ idx → wi1[j]? = wi[j]?) := by
  intro idx
  induction idx with
  | nil =>
    intro wi _ _
    exact ⟨wi, rfl, rfl, by simp, fun j _ => rfl⟩
  | cons j rest ih =>
    intro wi hnd hcond
    obtain ⟨hjw, hjdw⟩ := hcond j (List.mem_cons_self j rest)
    have hnd' := List.nodup_cons.mp hnd
    have hwij : wi.get? j = some (wi.getD j 0) := getq_some' wi 0 j hjw
    have hdwij : dwi.get? j = some (dwi.getD j 0) := getq_some' dwi 0 j hjdw
    have hset : npSet wi j ((1 - regH * lr / bs) * wi.getD j 0 - lr * dwi.getD j 0) =
        some (wi.set j ((1 - regH * lr / bs) * wi.getD j 0 - lr * dwi.getD j 0)) := by
      unfold npSet; rw [if_pos hjw]
    have hstep : updateWRowGo lr regH bs dwi (j :: rest) wi =
        updateWRowGo lr regH bs dwi rest (wi.set j (newWeight lr regH bs wi dwi j)) := by
      rw [updateWRowGo]
      simp only [hwij, hdwij, hset, newWeight, Option.bind_eq_bind, Option.some_bind]
    obtain ⟨wi1, hrun, hlen, hvals, hframe⟩ :=
      ih (wi.set j (newWeight lr regH bs wi dwi j)) hnd'.2 (by
        intro j' hm
        obtain ⟨c1, c2⟩ := hcond j' (List.mem_cons_of_mem j hm)
        exact ⟨by rw [List.length_set]; exact c1, c2⟩)
    refine ⟨wi1, by rw [hstep]; exact hrun, by rw [hlen, List.length_set], ?_, ?_⟩
    · intro j' hm
      rcases List.mem_cons.mp hm with h | h
      · subst h
        rw [hframe j' hnd'.1, List.getElem?_set_self hjw]
      · have hne : j ≠ j' := fun hh => hnd'.1 (hh ▸ h)
        rw [hvals j' h]
        unfold newWeight
        rw [getD_set_other wi j j' _ 0 hne]
    · intro j' hj
      have hj' : j' ≠ j ∧ j' ∉ rest := by simpa [List.mem_cons, not_or] using hj
      rw [hframe j' hj'.2, List.getElem?_set_ne (Ne.symm hj'.1)]

lemma updateWGo_spec (lr regH bs : ℝ) (pu : ℕ) (dw : List (List ℝ)) :
    ∀ (idx : List ℕ) (w : List (List ℝ)), idx.Nodup →
      (∀ i ∈ idx, i < w.length ∧ i < dw.length ∧
        pu ≤ (w.getD i []).length ∧ pu ≤ (dw.getD i []).length) →
      ∃ w1, updateWGo lr regH bs pu dw idx w = some w1 ∧ w1.length = w.length ∧
        (∀ i ∈ idx, ∃ wi1, w1[i]? = some wi1 ∧ wi1.length = (w.getD i []).length ∧
          (∀ j, j < pu →
            wi1[j]? = some (newWeight lr regH bs (w.getD i []) (dw.getD i []) j)) ∧
          (∀ j, ¬ j < pu → wi1[j]? = (w.getD i [])[j]?)) ∧
        (∀ j, j ∉ idx → w1[j]? = w[j]?) := by
  intro idx
  induction idx with
  | nil =>
    intro w _ _
    exact ⟨w, rfl, rfl, by simp, fun j _ => rfl⟩
  | cons i rest ih =>
    intro w hnd hcond
    obtain ⟨hiw, hidw, hrow, hdrow⟩ := hcond i (List.mem_cons_self i rest)
    have hnd' := List.nodup_cons.mp hnd
    have hwi : w.get? i = some (w.getD i []) := getq_some' w [] i hiw
    have hdwi : dw.get? i = some (dw.getD i []) := getq_some' dw [] i hidw
    obtain ⟨wi1, hrowrun, hrowlen, hrowvals, hrowframe⟩ :=
      updateWRowGo_spec lr regH bs (dw.getD i []) (List.range pu) (w.getD i [])
        (List.nodup_range pu) (by
          intro j hm
          have hj := List.mem_range.mp hm
          exact ⟨Nat.lt_of_lt_of_le hj hrow, Nat.lt_of_lt_of_le hj hdrow⟩)
    have hstep : updateWGo lr regH bs pu dw (i :: rest) w =
        updateWGo lr regH bs pu dw rest (w.set i wi1) := by
      rw [updateWGo]
      simp only [hwi, hdwi, hrowrun, Option.bind_eq_bind, Option.some_bind]
    obtain ⟨w1, hrun, hlen, hvals, hframe⟩ :=
      ih (w.set i wi1) hnd'.2 (by
        intro i' hm
        obtain ⟨c1, c2, c3, c4⟩ := hcond i' (List.mem_cons_of_mem i hm)
        have hne : i ≠ i' := fun hh => hnd'.1 (hh ▸ hm)
        refine ⟨by rw [List.length_set]; exact c1, c2, ?_, c4⟩
        rw [getD_set_other w i i' wi1 [] hne]
        exact c3)
    refine ⟨w1, by rw [hstep]; exact hrun, by rw [hlen, List.length_set], ?_, ?_⟩
    · intro i' hm
      rcases List.mem_cons.mp hm with h | h
      · subst h
        refine ⟨wi1, ?_, hrowlen, ?_, ?_⟩
        · rw [hframe i' hnd'.1, List.getElem?_set_self hiw]
        · intro j hj
          exact hrowvals j (List.mem_range.mpr hj)
        · intro j hj
          exact hrowframe j (fun hm2 => hj (List.mem_range.mp hm2))
      · have hne : i ≠ i' := fun hh => hnd'.1 (hh ▸ h)
        obtain ⟨u, hu1, hu2, hu3, hu4⟩ := hvals i' h
        rw [getD_set_other w i i' wi1 [] hne] at hu2 hu3 hu4
        exact ⟨u, hu1, hu2, hu3, hu4⟩
    · intro j hj
      have hj' : j ≠ i ∧ j ∉ rest := by simpa [List.mem_cons, not_or] using hj
      rw [hframe j hj'.2, List.getElem?_set_ne (Ne.symm hj'.1)]

lemma getD_mem {α : Type} (l : List α) (i : ℕ) (d : α) (h : i < l.length) :
    l.getD i d ∈ l := by
  rw [List.getD_eq_getElem l d h]
  exact List.getElem_mem h

lemma calcOut_spec (s : NNUnit) (x : List (List ℝ))
    (hw : s.w.length = s.nc) (hwr : ∀ r ∈ s.w, r.length = s.pu)
    (hb : s.b.length = s.nc) (ha : s.a.length = s.nc)
    (hx : x.length = s.pu) (hxr : ∀ r ∈ x, r.length = s.nc) :
    ∃ s1, s.CalcOut x = some s1 ∧ s1.prev_x = some x ∧ s1.nc = s.nc ∧ s1.pu = s.pu ∧
      s1.b = s.b ∧ s1.w = s.w ∧ s1.oldb = s.oldb ∧ s1.oldw = s.oldw ∧
      s1.a.length = s.nc ∧
      ∀ i, i < s.nc → s1.a[i]? = some (outVal s.w s.b x i) := by
  obtain ⟨a1, hrun, hlen, hvals, _⟩ :=
    calcOutGo_spec s.w s.b x (List.range s.nc) s.a (List.nodup_range s.nc) (by
      intro i hm
      have hi := List.mem_range.mp hm
      refine ⟨hw ▸ hi, fun r hr => (hxr r hr) ▸ hi, ?_, hb ▸ hi, ha ▸ hi⟩
      rw [hwr (s.w.getD i []) (getD_mem s.w i [] (hw ▸ hi)), hx])
  refine ⟨{ s with prev_x := some x, a := a1 }, ?_, rfl, rfl, rfl, rfl, rfl, rfl, rfl,
    hlen.trans ha, ?_⟩
  · unfold NNUnit.CalcOut
    rw [hrun]
  · intro i hi
    exact hvals i (List.mem_range.mpr hi)

lemma calcOutGo_some (w : List (List ℝ)) (b : List ℝ) (x : List (List ℝ)) :
    ∀ (idx : List ℕ) (a a1 : List ℝ), calcOutGo w b x idx a = some a1 →
      a1.length = a.length ∧
      (∀ j, j ∉ idx → a1[j]? = a[j]?) ∧
      (∀ i ∈ idx, ∃ v : ℝ, a1[i]? = some (calcActivation v)) := by
  intro idx
  induction idx with
  | nil =>
    intro a a1 h
    cases h
    exact ⟨rfl, fun j _ => rfl, by simp⟩
  | cons i rest ih =>
    intro a a1 h
    rw [calcOutGo] at h
    simp only [Option.bind_eq_bind, Option.bind_eq_some] at h
    obtain ⟨wi, hwi, xi, hxi, d, hd, bi, hbi, a2, hset, hrec⟩ := h
    have hia : i < a.length ∧ a2 = a.set i (calcActivation (d + bi)) := by
      unfold npSet at hset
      by_cases hlt : i < a.length
      · rw [if_pos hlt] at hset
        exact ⟨hlt, (Option.some_inj.mp hset).symm⟩
      · rw [if_neg hlt] at hset
        cases hset
    obtain ⟨hlt, ha2⟩ := hia
    subst ha2
    obtain ⟨ih1, ih2, ih3⟩ := ih _ _ hrec
    refine ⟨by rw [ih1, List.length_set], ?_, ?_⟩
    · intro j hj
      have hj' : j ≠ i ∧ j ∉ rest := by simpa [List.mem_cons, not_or] using hj
      rw [ih2 j hj'.2, List.getElem?_set_ne (Ne.symm hj'.1)]
    · intro i' hm
      rcases List.mem_cons.mp hm with hcase | hcase
      · subst hcase
        by_cases hmem : i' ∈ rest
        · exact ih3 i' hmem
        · refine ⟨d + bi, ?_⟩
          rw [ih2 i' hmem, List.getElem?_set_self hlt]
      · exact ih3 i' hcase

lemma updateWB_spec (s : NNUnit) (dw : List (List ℝ)) (db : List ℝ)
    (lr regH : ℝ) (b_size : ℕ)
    (hb : s.b.length = s.nc) (hdb : db.length = s.nc)
    (hw : s.w.length = s.nc) (hwr : ∀ r ∈ s.w, r.length = s.pu)
    (hdw : dw.length = s.nc) (hdwr : ∀ r ∈ dw, r.length = s.pu)
    (hbs : 0 < b_size) :
    ∃ s1, s.UpdateWB dw db lr regH b_size = some s1 ∧
      s1.nc = s.nc ∧ s1.pu = s.pu ∧ s1.a = s.a ∧ s1.prev_x = s.prev_x ∧
      s1.oldb = some s.b ∧ s1.oldw = some s.w ∧
      s1.b.length = s.nc ∧
      (∀ i, i < s.nc → s1.b[i]? = some (s.b.getD i 0 - lr * db.getD i 0)) ∧
      s1.w.length = s.nc ∧
      (∀ i, i < s.nc → ∃ wi1, s1.w[i]? = some wi1 ∧ wi1.length = s.pu ∧
        ∀ j, j < s.pu → wi1[j]? = some ((1 - regH * lr / (b_size : ℝ)) *
          (s.w.getD i []).getD j 0 - lr * (dw.getD i []).getD j 0)) := by
  obtain ⟨b1, hbrun, hblen, hbvals, _⟩ :=
    updateBGo_spec lr db (List.range s.nc) s.b (List.nodup_range s.nc) (by
      intro i hm
      have hi := List.mem_range.mp hm
      exact ⟨hb ▸ hi, hdb ▸ hi⟩)
  obtain ⟨w1, hwrun, hwlen, hwvals, _⟩ :=
    updateWGo_spec lr regH (b_size : ℝ) s.pu dw (List.range s.nc) s.w
      (List.nodup_range s.nc) (by
        intro i hm
        have hi := List.mem_range.mp hm
        refine ⟨hw ▸ hi, hdw ▸ hi, ?_, ?_⟩
        · rw [hwr (s.w.getD i []) (getD_mem s.w i [] (hw ▸ hi))]
        · rw [hdwr (dw.getD i []) (getD_mem dw i [] (hdw ▸ hi))])
  refine ⟨{ s with oldb := some s.b, oldw := some s.w, b := b1, w := w1 }, ?_,
    rfl, rfl, rfl, rfl, rfl, rfl, hblen.trans hb, ?_, hwlen.trans hw, ?_⟩
  · unfold NNUnit.UpdateWB
    rw [if_neg (Nat.pos_iff_ne_zero.mp hbs)]
    simp only [hbrun, hwrun, Option.bind_eq_bind, Option.some_bind]
  · intro i hi
    simpa [newBias] using hbvals i (List.mem_range.mpr hi)
  · intro i hi
    obtain ⟨wi1, h1, h2, h3, _⟩ := hwvals i (List.mem_range.mpr hi)
    refine ⟨wi1, h1, ?_, ?_⟩
    · rw [h2, hwr (s.w.getD i []) (getD_mem s.w i [] (hw ▸ hi))]
    · intro j hj
      simpa [newWeight] using h3 j hj

/-- Example unit with `classCount = 1`, `inputCount = 1`, bias `[0]`,
weights `[[1]]`, activation `[0]`, used to instantiate the theorems below
at concrete inputs. -/
def exS : NNUnit := ⟨1, 1, [0], [[1]], none, none, [0], none⟩

/-- State of `exS` after `CalcOut [[1]]`. -/
noncomputable def exS1 : NNUnit :=
  ⟨1, 1, [0], [[1]], none, none, [calcActivation (1 * 1 + 0 + 0)], some [[1]]⟩

/-- C1: for every Unit satisfying the data-model shape invariants
(`weights` is `classCount × inputCount`, `bias` and `activation` have
`classCount` entries) and every input matrix with `classCount` columns
each of length `inputCount`, `CalcOut` succeeds, stores the input as
`prev_x`, and sets `activation[i]` to
`activate(dot(weights[i], column i of input) + bias[i])` for each
`i < classCount`; `weights`, `bias`, `previousWeights` and `previousBias`
are unchanged. -/
theorem C1_forward_computes_activations (s : NNUnit) (x : List (List ℝ))
    (hw : s.w.length = s.nc) (hwr : ∀ r ∈ s.w, r.length = s.pu)
    (hb : s.b.length = s.nc) (ha : s.a.length = s.nc)
    (hx : x.length = s.pu) (hxr : ∀ r ∈ x, r.length = s.nc) :
    ∃ s1, s.CalcOut x = some s1 ∧
      s1.prev_x = some x ∧
      s1.a.length = s.nc ∧
      (∀ i, i < s.nc → s1.a[i]? =
        some (calcActivation (dotList (s.w.getD i []) (colList x i) + s.b.getD i 0))) ∧
      s1.w = s.w ∧ s1.b = s.b ∧ s1.oldw = s.oldw ∧ s1.oldb = s.oldb := by
  obtain ⟨s1, h1, h2, _, _, h5, h6, h7, h8, h9, h10⟩ := calcOut_spec s x hw hwr hb ha hx hxr
  exact ⟨s1, h1, h2, h9, fun i hi => h10 i hi, h6, h5, h8, h7⟩

/-- Witness for C1 at the concrete unit `exS` and input `[[1]]`. -/
theorem C1_witness :
    ∃ s1, exS.CalcOut [[1]] = some s1 ∧
      s1.prev_x = some [[1]] ∧
      s1.a.length = exS.nc ∧
      (∀ i, i < exS.nc → s1.a[i]? =
        some (calcActivation (dotList (exS.w.getD i []) (colList [[1]] i) + exS.b.getD i 0))) ∧
      s1.w = exS.w ∧ s1.b = exS.b ∧ s1.oldw = exS.oldw ∧ s1.oldb = exS.oldb :=
  C1_forward_computes_activations exS [[1]] rfl (by simp [exS]) rfl rfl rfl (by simp [exS])

/-- C2: for every Unit satisfying the shape invariants and well-shaped
gradients, non-negative `lr` and `regH` and positive `b_size`, `UpdateWB`
succeeds, snapshots the pre-update `bias`/`weights` into
`oldb`/`oldw`, sets `bias[i]` to `bias[i] - lr·db[i]` and `weights[i][j]`
to `(1 - regH·lr/b_size)·weights[i][j] - lr·dw[i][j]`. -/
theorem C2_update_gradient_step (s : NNUnit) (dw : List (List ℝ)) (db : List ℝ)
    (lr regH : ℝ) (b_size : ℕ)
    (hb : s.b.length = s.nc) (hdb : db.length = s.nc)
    (hw : s.w.length = s.nc) (hwr : ∀ r ∈ s.w, r.length = s.pu)
    (hdw : dw.length = s.nc) (hdwr : ∀ r ∈ dw, r.length = s.pu)
    (hlr : 0 ≤ lr) (hreg : 0 ≤ regH) (hbs : 0 < b_size) :
    ∃ s1, s.UpdateWB dw db lr regH b_size = some s1 ∧
      s1.oldb = some s.b ∧ s1.oldw = some s.w ∧
      s1.b.length = s.nc ∧
      (∀ i, i < s.nc → s1.b[i]? = some (s.b.getD i 0 - lr * db.getD i 0)) ∧
      s1.w.length = s.nc ∧
      (∀ i, i < s.nc → ∃ wi1, s1.w[i]? = some wi1 ∧ wi1.length = s.pu ∧
        ∀ j, j < s.pu → wi1[j]? = some ((1 - regH * lr / (b_size : ℝ)) *
          (s.w.getD i []).getD j 0 - lr * (dw.getD i []).getD j 0)) := by
  obtain ⟨s1, h1, _, _, _, _, h6, h7, h8, h9, h10, h11⟩ :=
    updateWB_spec s dw db lr regH b_size hb hdb hw hwr hdw hdwr hbs
  exact ⟨s1, h1, h6, h7, h8, h9, h10, h11⟩

/-- Witness for C2 at the concrete unit `exS`, gradients `[[1]]`/`[1]`,
`lr = 1`, `regH = 0`, `b_size = 1`. -/
theorem C2_witness :
    ∃ s1, exS.UpdateWB [[1]] [1] 1 0 1 = some s1 ∧
      s1.oldb = some exS.b ∧ s1.oldw = some exS.w ∧
      s1.b.length = exS.nc ∧
      (∀ i, i < exS.nc → s1.b[i]? = some (exS.b.getD i 0 - 1 * List.getD [1] i 0)) ∧
      s1.w.length = exS.nc ∧
      (∀ i, i < exS.nc → ∃ wi1, s1.w[i]? = some wi1 ∧ wi1.length = exS.pu ∧
        ∀ j, j < exS.pu → wi1[j]? = some ((1 - 0 * 1 / ((1 : ℕ) : ℝ)) *
          (exS.w.getD i []).getD j 0 - 1 * (List.getD [[1]] i []).getD j 0)) :=
  C2_update_gradient_step exS [[1]] [1] 1 0 1 rfl rfl rfl (by simp [exS]) rfl
    (by simp [exS]) (by norm_num) (by norm_num) (by norm_num)

/-- C10: for every Unit satisfying the shape invariants and well-shaped
gradients, `UpdateWB` mutates only `b`, `w`, `oldb`, `oldw`: the fields
`nc`, `pu`, `a` and `prev_x` are exactly the same after the call. -/
theorem C10_update_frame (s : NNUnit) (dw : List (List ℝ)) (db : List ℝ)
    (lr regH : ℝ) (b_size : ℕ)
    (hb : s.b.length = s.nc) (hdb : db.length = s.nc)
    (hw : s.w.length = s.nc) (hwr : ∀ r ∈ s.w, r.length = s.pu)
    (hdw : dw.length = s.nc) (hdwr : ∀ r ∈ dw, r.length = s.pu)
    (hbs : 0 < b_size) :
    ∃ s1, s.UpdateWB dw db lr regH b_size = some s1 ∧
      s1.nc = s.nc ∧ s1.pu = s.pu ∧ s1.a = s.a ∧ s1.prev_x = s.prev_x := by
  obtain ⟨s1, h1, h2, h3, h4, h5, _⟩ :=
    updateWB_spec s dw db lr regH b_size hb hdb hw hwr hdw hdwr hbs
  exact ⟨s1, h1, h2, h3, h4, h5⟩

/-- Witness for C10 at the concrete unit `exS`. -/
theorem C10_witness :
    ∃ s1, exS.UpdateWB [[1]] [1] 1 0 1 = some s1 ∧
      s1.nc = exS.nc ∧ s1.pu = exS.pu ∧ s1.a = exS.a ∧ s1.prev_x = exS.prev_x :=
  C10_update_frame exS [[1]] [1] 1 0 1 rfl rfl rfl (by simp [exS]) rfl
    (by simp [exS]) (by norm_num)

/-- C3 (evidence of the defect): construction with `classCount = 2`,
`inputCount = 3` does not produce a Unit, because line 13
`self.a = np.zeros(1, n_classes)` hands `n_classes` to the `dtype`
parameter of `np.zeros` and numpy rejects an integer dtype with a
`TypeError`; the claimed zero bias of length `classCount` and the
`classCount`-entry activation vector are never obtained. -/
theorem C3_ctor_fails :
    NNUnit.init 2 3 [[1, 0, 0], [0, 1, 0]] = none := rfl

/-- C4 (evidence of the defect): `CalcOut` performs no shape validation.
On the unit `exS` (`classCount = 1`) and an input whose rows have length
2 — i.e. an input with 2 columns, not `classCount = 1` — the call
succeeds silently, reading only column 0 and ignoring the extra column,
instead of failing with a shape-mismatch error. -/
theorem C4_forward_ignores_extra_columns :
    (∀ r ∈ [[(5:ℝ), 7]], r.length ≠ exS.nc) ∧
      (exS.CalcOut [[5, 7]]).isSome = true :=
  ⟨by simp [exS], rfl⟩

/-- C5: `activate` maps every real into the open interval (0, 1), and
after every successful forward pass the activation vector has
`classCount` entries, every one of them strictly between 0 and 1. -/
theorem C5_forward_activations_in_unit_interval (s : NNUnit) (x : List (List ℝ))
    (s1 : NNUnit) (ha : s.a.length = s.nc) (h : s.CalcOut x = some s1) :
    (∀ r : ℝ, calcActivation r ∈ Set.Ioo (0:ℝ) 1) ∧
      s1.a.length = s.nc ∧
      ∀ v ∈ s1.a, v ∈ Set.Ioo (0:ℝ) 1 := by
  refine ⟨calcActivation_mem_Ioo, ?_⟩
  unfold NNUnit.CalcOut at h
  cases hgo : calcOutGo s.w s.b x (List.range s.nc) s.a with
  | none =>
    rw [hgo] at h
    cases h
  | some a1 =>
    rw [hgo] at h
    have hs1 : s1 = { s with prev_x := some x, a := a1 } := (Option.some_inj.mp h).symm
    subst hs1
    obtain ⟨hlen, _, hvals⟩ := calcOutGo_some s.w s.b x (List.range s.nc) s.a a1 hgo
    refine ⟨hlen.trans ha, ?_⟩
    intro v hv
    obtain ⟨n, hn⟩ := List.mem_iff_getElem?.mp hv
    have hnlt : n < a1.length := by
      obtain ⟨hh, _⟩ := List.getElem?_eq_some_iff.mp hn
      exact hh
    have hmem : n ∈ List.range s.nc := by
      refine List.mem_range.mpr ?_
      rw [← ha, ← hlen]
      exact hnlt
    obtain ⟨r, hr⟩ := hvals n hmem
    rw [hn] at hr
    cases Option.some_inj.mp hr
    exact calcActivation_mem_Ioo r

/-- Witness for C5 at the concrete unit `exS`, input `[[1]]` and
resulting state `exS1`. -/
theorem C5_witness : calcActivation (1 * 1 + 0 + 0) ∈ Set.Ioo (0:ℝ) 1 := by
  have h := C5_forward_activations_in_unit_interval exS [[1]] exS1 rfl rfl
  exact h.2.2 (calcActivation (1 * 1 + 0 + 0)) (by simp [exS1])

/-- C7: `calcActivation` is the pure logistic function
`x ↦ 1/(1 + e^(-x))` (modelled as a plain function, touching no Unit
state), and its value at 0 is 1/2. -/
theorem C7_activate_is_logistic :
    (∀ x : ℝ, calcActivation x = 1 / (1 + Real.exp (-x))) ∧
      calcActivation 0 = 1 / 2 := by
  refine ⟨fun x => rfl, ?_⟩
  unfold calcActivation
  rw [neg_zero, Real.exp_zero]
  norm_num

/-- C8: the logistic symmetry `activate(x) + activate(-x) = 1` holds for
every real `x`. -/
theorem C8_activate_symmetric (x : ℝ) :
    calcActivation x + calcActivation (-x) = 1 := by
  unfold calcActivation
  rw [neg_neg, Real.exp_neg]
  have h : Real.exp x ≠ 0 := (Real.exp_pos x).ne'
  have h2 : (1:ℝ) + (Real.exp x)⁻¹ ≠ 0 := by positivity
  have h3 : (1:ℝ) + Real.exp x ≠ 0 := by positivity
  field_simp
  ring

/-- C9: `calcActivation` is strictly monotonically increasing. -/
theorem C9_activate_strictMono (x y : ℝ) (h : x < y) :
    calcActivation x < calcActivation y := by
  unfold calcActivation
  have h1 : (0:ℝ) < 1 + Real.exp (-y) := by positivity
  have h2 : Real.exp (-y) < Real.exp (-x) := Real.exp_lt_exp.mpr (neg_lt_neg h)
  exact div_lt_div_of_pos_left one_pos h1 (by linarith)

/-- Witness for C9 at `x = 0`, `y = 1`. -/
theorem C9_witness : (0:ℝ) < 1 ∧ calcActivation 0 < calcActivation 1 :=
  ⟨by norm_num, C9_activate_strictMono 0 1 (by norm_num)⟩
